import Mathlib

/-!
Verification of the pydec IDEC/ii uplink client.

We give a shallow embedding of the client (src/uplink.py, src/message.py,
src/types.py, src/exceptions.py).  Python strings are modelled as `List Char`
(`PyStr`); Python exceptions become `Except`/`Option` results; the network
call inside each request method is factored out, so a request method is
modelled by (a) the URL it would request (built before any network access,
or a typed error raised instead) and (b) a pure parser applied to the
decoded response body.
-/

/-- Python strings, modelled as lists of characters. -/
abbrev PyStr := List Char

/-- `str.isascii()`: every character has code point below 128
(true for the empty string). -/
def pyIsAscii (s : PyStr) : Bool :=
  s.all (fun c => c.toNat < 128)

/-- The six ASCII whitespace characters recognised by Python's `str.strip()`
and `str.split()` (Python also strips some further Unicode whitespace, which
never occurs in this protocol's ASCII bodies and is irrelevant to the claims). -/
def isPySpace (c : Char) : Bool :=
  c = ' ' || c = '\t' || c = '\n' || c = '\r' || c = Char.ofNat 11 || c = Char.ofNat 12

/-- `str.split(sep)` for a one-character separator: split at every occurrence
of `sep`, keeping empty parts; the empty string yields `[[]]`, as in Python
where `"".split(sep) == [""]`. -/
def splitOnChar (sep : Char) : PyStr → List PyStr
  | [] => [[]]
  | c :: rest =>
    if c = sep then
      [] :: splitOnChar sep rest
    else
      match splitOnChar sep rest with
      | [] => [[c]]
      | t :: ts => (c :: t) :: ts

/-- `sep.join(parts)` for a one-character separator. -/
def joinWith (sep : Char) : List PyStr → PyStr
  | [] => []
  | [t] => t
  | t :: u :: ts => t ++ sep :: joinWith sep (u :: ts)

/-- Strip characters satisfying `p` from both ends of a string
(the common core of `str.strip()` and `str.strip('/')`). -/
def stripEnds (p : Char → Bool) (s : PyStr) : PyStr :=
  ((s.dropWhile p).reverse.dropWhile p).reverse

/-- `str.strip()` with no argument: strip whitespace from both ends. -/
def pyStrip (s : PyStr) : PyStr := stripEnds isPySpace s

/-- `str.strip('/')`: strip slashes from both ends. -/
def stripSlashes (s : PyStr) : PyStr := stripEnds (fun c => c = '/') s

/-- Helper for `pySplitWs`: `acc` is the current (reversed) token. -/
def pySplitWsAux : PyStr → PyStr → List PyStr
  | acc, [] => if acc = [] then [] else [acc.reverse]
  | acc, c :: rest =>
    if isPySpace c then
      if acc = [] then pySplitWsAux [] rest
      else acc.reverse :: pySplitWsAux [] rest
    else pySplitWsAux (c :: acc) rest

/-- `str.split()` with no argument: split on runs of whitespace, producing
no empty tokens. -/
def pySplitWs (s : PyStr) : List PyStr := pySplitWsAux [] s

/-- Value of an ASCII decimal digit character, if it is one. -/
def digitVal (c : Char) : Option Nat :=
  if 48 ≤ c.toNat ∧ c.toNat ≤ 57 then some (c.toNat - 48) else none

/-- A non-empty all-digit string read as a natural number. -/
def digitsToNat : PyStr → Option Nat
  | [] => none
  | s => s.foldl (fun acc c => acc.bind (fun a => (digitVal c).map (fun d => a * 10 + d))) (some 0)

/-- Python's `int(str)` on the inputs this protocol produces: surrounding
whitespace stripped, an optional sign, then one or more decimal digits.
(Python's `int` additionally accepts underscore digit separators and
non-ASCII Unicode digits; those never arise here and no claim depends
on them.)  Returns `none` where `int()` raises `ValueError`. -/
def pyInt (s : PyStr) : Option Int :=
  match pyStrip s with
  | '+' :: rest => (digitsToNat rest).map Int.ofNat
  | '-' :: rest => (digitsToNat rest).map (fun n => -(n : Int))
  | rest => (digitsToNat rest).map Int.ofNat

/-- ASCII decimal digit of a value below ten. -/
def digitChar (n : Nat) : Char :=
  match n with
  | 0 => '0' | 1 => '1' | 2 => '2' | 3 => '3' | 4 => '4'
  | 5 => '5' | 6 => '6' | 7 => '7' | 8 => '8' | _ => '9'

/-- Fuelled digit emitter for `natToChars`: prepends the digits of `n` to
`acc`; the fuel is structural so that the function reduces in the kernel,
and `natToChars` supplies enough of it for every input. -/
def natToCharsAux : Nat → Nat → PyStr → PyStr
  | 0, _, acc => acc
  | fuel + 1, n, acc =>
    if n < 10 then digitChar n :: acc
    else natToCharsAux fuel (n / 10) (digitChar (n % 10) :: acc)

/-- Decimal digits of a natural number, as produced by Python's `str`/f-strings. -/
def natToChars (n : Nat) : PyStr := natToCharsAux (n + 1) n []

/-- Decimal rendering of an integer, as produced by Python's f-strings. -/
def intToChars (i : Int) : PyStr :=
  if i < 0 then '-' :: natToChars i.natAbs else natToChars i.natAbs

/-! ## Data model (src/types.py, src/message.py, src/exceptions.py) -/

/-- `AreaListItem` (src/types.py): one row of an (echo/file)area catalog. -/
structure AreaListItem where
  name : PyStr
  count : Int
  description : PyStr
deriving DecidableEq, Repr

/-- `FileAreaItem` (src/types.py): one row of a filearea index. -/
structure FileAreaItem where
  filearea : PyStr
  fid : PyStr
  name : PyStr
  size : Int
  address : PyStr
  description : PyStr
deriving DecidableEq, Repr

/-- `Message` (src/message.py): an immutable message record. -/
structure Message where
  msgid : PyStr
  tags : PyStr
  echoarea : PyStr
  date : Int
  msgfrom : PyStr
  address : PyStr
  msgto : PyStr
  subject : PyStr
  body : PyStr
deriving DecidableEq, Repr

/-- The typed errors of src/exceptions.py, each carrying the offending
identifier (the Python code formats it into the exception message,
`f'incorrect area name: {area}'` / `f'incorrect msgid: {msgid}'`). -/
inductive UplinkError where
  | areaNameError (name : PyStr)
  | msgIdError (msgid : PyStr)
deriving DecidableEq, Repr

deriving instance DecidableEq for Except

/-- `Uplink.__init__` state: normalized base url, optional auth string,
subscribed areas. -/
structure Uplink where
  url : PyStr
  authstr : Option PyStr
  areas : List PyStr
deriving DecidableEq, Repr

/-! ## Identifier validators (src/uplink.py lines 27-55) -/

/-- `Uplink._is_areaname_correct`: `'.' in name and name.isascii()`. -/
def is_areaname_correct (name : PyStr) : Bool :=
  name.contains '.' && pyIsAscii name

/-- `Uplink._is_area_collection_correct_names`: scan in iteration order,
return `(False, area)` at the first invalid name, else `(True, '')`. -/
def is_area_collection_correct_names : List PyStr → Bool × PyStr
  | [] => (true, [])
  | area :: rest =>
    if is_areaname_correct area then is_area_collection_correct_names rest
    else (false, area)

/-- `Uplink._is_msgid_correct`: false when `len(msgid) != 20 or not
msgid.isascii()`, else true. -/
def is_msgid_correct (msgid : PyStr) : Bool :=
  !(msgid.length ≠ 20 || !pyIsAscii msgid)

/-- `Uplink._is_msgid_collection_correct_ids`: scan in iteration order,
return `(False, msgid)` at the first invalid id, else `(True, '')`. -/
def is_msgid_collection_correct_ids : List PyStr → Bool × PyStr
  | [] => (true, [])
  | msgid :: rest =>
    if is_msgid_correct msgid then is_msgid_collection_correct_ids rest
    else (false, msgid)

/-! ## URL builder (src/uplink.py `_urljoin`) and request models

Each Python request method first validates (where it validates at all), then
builds a URL, then performs the blocking HTTP exchange, then parses the
response body.  The network exchange is external; we model each method by
the URL it requests (`..._request`, returning `Except UplinkError` where the
method can raise before any network access) together with a pure parser of
the decoded response body (`..._request_parse`). -/

/-- `Uplink._urljoin`: strip `/` from both ends of every argument and join
with `/`. -/
def urljoin (args : List PyStr) : PyStr :=
  joinWith '/' (args.map stripSlashes)

/-- Path segment `e`. -/
def ePath : PyStr := ['e']

/-- Path segment `m`. -/
def mPath : PyStr := ['m']

/-- Path segment `u/e`. -/
def uePath : PyStr := ['u', '/', 'e']

/-- Path segment `u/e/` (the no-slice branch of `ue_request` uses it). -/
def uePathSlash : PyStr := ['u', '/', 'e', '/']

/-- Path segment `u/m`. -/
def umPath : PyStr := ['u', '/', 'm']

/-- Path segment `x/c`. -/
def xcPath : PyStr := ['x', '/', 'c']

/-- Path segment `f/c`. -/
def fcPath : PyStr := ['f', '/', 'c']

/-- Path segment `f/e`. -/
def fePath : PyStr := ['f', '/', 'e']

/-- Path segment `f/f`. -/
def ffPath : PyStr := ['f', '/', 'f']

/-- The slice suffix `f'{start}:{end}'` of `ue_request`/`fe_request`. -/
def sliceSeg (start fin : Int) : PyStr :=
  intToChars start ++ ':' :: intToChars fin

/-- `Uplink.e_request` up to the network call: validate the area name, then
request `_urljoin(url, 'e', area)`. -/
def e_request (u : Uplink) (area : PyStr) : Except UplinkError PyStr :=
  if is_areaname_correct area then .ok (urljoin [u.url, ePath, area])
  else .error (.areaNameError area)

/-- `Uplink.m_request` up to the network call: validate the msgid, then
request `_urljoin(url, 'm', msgid)`. -/
def m_request (u : Uplink) (msgid : PyStr) : Except UplinkError PyStr :=
  if is_msgid_correct msgid then .ok (urljoin [u.url, mPath, msgid])
  else .error (.msgIdError msgid)

/-- `Uplink.ue_request` up to the network call: validate all area names;
with both `start` and `end` truthy (non-zero) append `f'/{start}:{end}'`
as a further `_urljoin` argument, else join without a slice segment. -/
def ue_request (u : Uplink) (area_collection : List PyStr) (start fin : Int) :
    Except UplinkError PyStr :=
  let check := is_area_collection_correct_names area_collection
  if check.1 then
    if start ≠ 0 ∧ fin ≠ 0 then
      .ok (urljoin (u.url :: uePath :: (area_collection ++ ['/' :: sliceSeg start fin])))
    else
      .ok (urljoin (u.url :: uePathSlash :: area_collection))
  else .error (.areaNameError check.2)

/-- `Uplink.um_request` up to the network call: validate all msgids, then
request `_urljoin(url, 'u/m', *msgids)`. -/
def um_request (u : Uplink) (msgid_collection : List PyStr) : Except UplinkError PyStr :=
  let check := is_msgid_collection_correct_ids msgid_collection
  if check.1 then .ok (urljoin (u.url :: umPath :: msgid_collection))
  else .error (.msgIdError check.2)

/-- `Uplink.xc_request` up to the network call: no validation is performed;
the URL is always requested. -/
def xc_request (u : Uplink) (area_collection : List PyStr) : PyStr :=
  urljoin (u.url :: xcPath :: area_collection)

/-- `Uplink.fc_request` up to the network call: no validation is performed. -/
def fc_request (u : Uplink) (filearea_collection : List PyStr) : PyStr :=
  urljoin (u.url :: fcPath :: filearea_collection)

/-- `Uplink.fe_request` up to the network call: no validation is performed;
with both `start` and `end` truthy append `f'{start}:{end}'` as a further
`_urljoin` argument. -/
def fe_request (u : Uplink) (filearea_collection : List PyStr) (start fin : Int) : PyStr :=
  if start ≠ 0 ∧ fin ≠ 0 then
    urljoin (u.url :: fePath :: (filearea_collection ++ [sliceSeg start fin]))
  else
    urljoin (u.url :: fePath :: filearea_collection)

/-- `Uplink.ff_request` up to the network call: no validation is performed. -/
def ff_request (u : Uplink) (filearea fid : PyStr) : PyStr :=
  urljoin [u.url, ffPath, filearea, fid]

/-! ## Response parsers -/

/-- The per-line loop of `listtxt_request` (and, identically, of
`flisttxt_request`): `area = line.split(':')`, then
`AreaListItem(area[0], int(area[1]), ':'.join(area[2:]))`.  A line with
fewer than two colon-fields raises `IndexError`, a non-integer count raises
`ValueError`; both are modelled by `none`. -/
def listtxtLines : List PyStr → Option (List AreaListItem)
  | [] => some []
  | line :: rest =>
    match splitOnChar ':' line with
    | f0 :: f1 :: ds =>
      match pyInt f1 with
      | some n => (listtxtLines rest).map (fun items => ⟨f0, n, joinWith ':' ds⟩ :: items)
      | none => none
    | _ => none

/-- Response parsing of `Uplink.listtxt_request`:
`body.strip().split('\n')`, then the per-line loop. -/
def listtxt_request_parse (body : PyStr) : Option (List AreaListItem) :=
  listtxtLines (splitOnChar '\n' (pyStrip body))

/-- Response parsing of `Uplink.flisttxt_request` (same loop as
`listtxt_request`). -/
def flisttxt_request_parse (body : PyStr) : Option (List AreaListItem) :=
  listtxtLines (splitOnChar '\n' (pyStrip body))

/-- Response parsing of `Uplink.blacklisttxt_request`:
`set(filter(lambda x: x, body.split()))`. -/
def blacklisttxt_request_parse (body : PyStr) : Finset PyStr :=
  ((pySplitWs body).filter (fun x => !x.isEmpty)).toFinset

/-- Response parsing of `Uplink.xfeatures_request`:
`tuple(body.strip().split('\n'))`. -/
def xfeatures_request_parse (body : PyStr) : List PyStr :=
  splitOnChar '\n' (pyStrip body)

/-- Response parsing of `Uplink.fblacklisttxt_request`:
`tuple(body.strip().split('\n'))`. -/
def fblacklisttxt_request_parse (body : PyStr) : List PyStr :=
  splitOnChar '\n' (pyStrip body)

/-- The per-line loop of `fe_request`'s response parsing, carrying the
current `area_name` accumulator: a line whose colon-split has exactly one
field sets the accumulator and produces no record; otherwise
`FileAreaItem(area_name, field[0], field[1], int(field[2]), field[3],
':'.join(field[4:]))` — `IndexError` on fewer than four fields and
`ValueError` on a bad integer are modelled by `none`. -/
def feLines (area_name : PyStr) : List PyStr → Option (List FileAreaItem)
  | [] => some []
  | line :: rest =>
    match splitOnChar ':' line with
    | [a] => feLines a rest
    | f0 :: f1 :: f2 :: f3 :: ds =>
      match pyInt f2 with
      | some size =>
        (feLines area_name rest).map
          (fun items => ⟨area_name, f0, f1, size, f3, joinWith ':' ds⟩ :: items)
      | none => none
    | _ => none

/-- Response parsing of `Uplink.fe_request`: `body.strip().split('\n')`
scanned by `feLines` with the accumulator initially `""`. -/
def fe_request_parse (body : PyStr) : Option (List FileAreaItem) :=
  feLines [] (splitOnChar '\n' (pyStrip body))

/-- `Message.from_raw_text` (src/message.py): `lines = text.split('\n')`;
fields are `lines[0] .. lines[6]` with `int(lines[2])`, and the body is
`'\n'.join(lines[8:])`.  Fewer than 7 lines raises `IndexError` and a bad
integer raises `ValueError`; both are modelled by `none`. -/
def Message.from_raw_text (msgid text : PyStr) : Option Message :=
  match splitOnChar '\n' text with
  | l0 :: l1 :: l2 :: l3 :: l4 :: l5 :: l6 :: rest =>
    match pyInt l2 with
    | some d => some ⟨msgid, l0, l1, d, l3, l4, l5, l6, joinWith '\n' (rest.drop 1)⟩
    | none => none
  | _ => none

/-! ## Claim C2 -/

/-- C2: for every string `s`, the area-name validator returns true iff `s`
contains at least one `.` and every character of `s` is ASCII; and the msgid
validator returns true iff `s` has length exactly 20 and every character of
`s` is ASCII. -/
theorem c2_validator_characterization (s : PyStr) :
    (is_areaname_correct s = true ↔ '.' ∈ s ∧ ∀ c ∈ s, c.toNat < 128) ∧
    (is_msgid_correct s = true ↔ s.length = 20 ∧ ∀ c ∈ s, c.toNat < 128) := by
  constructor
  · simp [is_areaname_correct, pyIsAscii, List.contains, List.all_eq_true]
  · simp [is_msgid_correct, pyIsAscii, List.all_eq_true]

/-! ## Helper lemmas about the string primitives -/

theorem splitOnChar_ne_nil (sep : Char) (s : PyStr) : splitOnChar sep s ≠ [] := by
  induction s with
  | nil => simp [splitOnChar]
  | cons c rest ih =>
    simp only [splitOnChar]
    split
    · simp
    · split
      · simp
      · simp

theorem splitOnChar_of_not_mem {sep : Char} {s : PyStr} (h : sep ∉ s) :
    splitOnChar sep s = [s] := by
  induction s with
  | nil => rfl
  | cons c rest ih =>
    have hc : ¬ c = sep := fun hcs => h (hcs ▸ List.mem_cons_self c rest)
    have hr : sep ∉ rest := fun hm => h (List.mem_cons_of_mem c hm)
    simp only [splitOnChar, if_neg hc, ih hr]

theorem two_le_length_splitOnChar {sep : Char} {s : PyStr} (h : sep ∈ s) :
    2 ≤ (splitOnChar sep s).length := by
  induction s with
  | nil => cases h
  | cons c rest ih =>
    simp only [splitOnChar]
    by_cases hc : c = sep
    · have := splitOnChar_ne_nil sep rest
      have hpos : 0 < (splitOnChar sep rest).length := List.length_pos.mpr this
      simp only [if_pos hc, List.length_cons]
      omega
    · have hmem : sep ∈ rest := by
        rcases List.mem_cons.mp h with h1 | h1
        · exact absurd h1.symm hc
        · exact h1
      have ih2 := ih hmem
      cases hsp : splitOnChar sep rest with
      | nil => exact absurd hsp (splitOnChar_ne_nil sep rest)
      | cons t ts =>
        rw [hsp] at ih2
        simp only [if_neg hc, hsp, List.length_cons] at ih2 ⊢
        omega

theorem getLast?_splitOnChar_append (sep : Char) (x y : PyStr) :
    (splitOnChar sep (x ++ sep :: y)).getLast? = (splitOnChar sep y).getLast? := by
  induction x with
  | nil =>
    simp only [List.nil_append, splitOnChar, if_pos rfl]
    cases hsp : splitOnChar sep y with
    | nil => exact absurd hsp (splitOnChar_ne_nil sep y)
    | cons t ts => exact List.getLast?_cons_cons
  | cons c x ih =>
    simp only [List.cons_append, splitOnChar]
    by_cases hc : c = sep
    · simp only [if_pos hc]
      cases hsp : splitOnChar sep (x ++ sep :: y) with
      | nil => exact absurd hsp (splitOnChar_ne_nil sep _)
      | cons t ts =>
        rw [hsp] at ih
        rw [List.getLast?_cons_cons, ih]
    · have hmem : sep ∈ x ++ sep :: y := List.mem_append_right x (List.mem_cons_self sep y)
      cases hsp : splitOnChar sep (x ++ sep :: y) with
      | nil => exact absurd hsp (splitOnChar_ne_nil sep _)
      | cons t ts =>
        have h2 := two_le_length_splitOnChar hmem
        rw [hsp] at ih h2
        simp only [if_neg hc, hsp]
        cases ts with
        | nil => simp at h2
        | cons u us =>
          rw [List.getLast?_cons_cons] at ih
          rw [List.getLast?_cons_cons]
          exact ih

theorem joinWith_splitOnChar (sep : Char) (s : PyStr) :
    joinWith sep (splitOnChar sep s) = s := by
  induction s with
  | nil => rfl
  | cons c rest ih =>
    simp only [splitOnChar]
    by_cases hc : c = sep
    · cases hsp : splitOnChar sep rest with
      | nil => exact absurd hsp (splitOnChar_ne_nil sep rest)
      | cons t ts =>
        rw [hsp] at ih
        simp only [if_pos hc, hsp, joinWith, ← ih, hc]
        simp
    · cases hsp : splitOnChar sep rest with
      | nil => exact absurd hsp (splitOnChar_ne_nil sep rest)
      | cons t ts =>
        rw [hsp] at ih
        simp only [if_neg hc, hsp]
        cases ts with
        | nil => simp only [joinWith] at ih ⊢; rw [ih]
        | cons u us => simp only [joinWith] at ih ⊢; rw [List.cons_append, ih]

theorem joinWith_append_single {sep : Char} {xs : List PyStr} (y : PyStr) (h : xs ≠ []) :
    joinWith sep (xs ++ [y]) = joinWith sep xs ++ sep :: y := by
  induction xs with
  | nil => exact absurd rfl h
  | cons c cs ih =>
    cases cs with
    | nil => rfl
    | cons d ds =>
      have hrec := ih (by simp)
      simp only [List.cons_append] at hrec ⊢
      simp only [joinWith]
      rw [hrec]
      simp

theorem digitChar_toNat_range (n : Nat) :
    48 ≤ (digitChar n).toNat ∧ (digitChar n).toNat ≤ 57 := by
  unfold digitChar
  split <;> decide

theorem mem_natToCharsAux {fuel n : Nat} {acc : PyStr} {c : Char}
    (h : c ∈ natToCharsAux fuel n acc) :
    (48 ≤ c.toNat ∧ c.toNat ≤ 57) ∨ c ∈ acc := by
  induction fuel generalizing n acc with
  | zero => exact Or.inr h
  | succ fuel ih =>
    simp only [natToCharsAux] at h
    split at h
    · rcases List.mem_cons.mp h with h1 | h1
      · exact Or.inl (h1 ▸ digitChar_toNat_range n)
      · exact Or.inr h1
    · rcases ih h with h1 | h1
      · exact Or.inl h1
      · rcases List.mem_cons.mp h1 with h2 | h2
        · exact Or.inl (h2 ▸ digitChar_toNat_range (n % 10))
        · exact Or.inr h2

theorem mem_sliceSeg_not_slash {start fin : Int} {c : Char} (h : c ∈ sliceSeg start fin) :
    ¬ c = '/' := by
  intro hc
  subst hc
  have hdig : ∀ m : Nat, ('/' : Char) ∈ natToChars m → False := by
    intro m hm
    rcases mem_natToCharsAux hm with h1 | h1
    · have h47 : ('/' : Char).toNat = 47 := by decide
      omega
    · cases h1
  simp only [sliceSeg, List.mem_append, List.mem_cons] at h
  rcases h with h | h | h
  · simp only [intToChars] at h
    split at h
    · rcases List.mem_cons.mp h with h1 | h1
      · exact absurd h1 (by decide)
      · exact hdig _ h1
    · exact hdig _ h
  · exact absurd h (by decide)
  · simp only [intToChars] at h
    split at h
    · rcases List.mem_cons.mp h with h1 | h1
      · exact absurd h1 (by decide)
      · exact hdig _ h1
    · exact hdig _ h

theorem dropWhile_eq_self_of_none {p : Char → Bool} {s : PyStr}
    (h : ∀ c ∈ s, p c = false) : s.dropWhile p = s := by
  cases s with
  | nil => rfl
  | cons c cs => simp [List.dropWhile, h c (List.mem_cons_self c cs)]

theorem stripEnds_eq_self {p : Char → Bool} {s : PyStr}
    (h : ∀ c ∈ s, p c = false) : stripEnds p s = s := by
  unfold stripEnds
  rw [dropWhile_eq_self_of_none h,
      dropWhile_eq_self_of_none (fun c hc => h c (List.mem_reverse.mp hc)),
      List.reverse_reverse]

theorem stripSlashes_sliceSeg (start fin : Int) :
    stripSlashes (sliceSeg start fin) = sliceSeg start fin := by
  apply stripEnds_eq_self
  intro c hc
  simpa using mem_sliceSeg_not_slash hc

theorem stripSlashes_cons_slash (s : PyStr) :
    stripSlashes ('/' :: s) = stripSlashes s := by
  simp [stripSlashes, stripEnds, List.dropWhile]

theorem urljoin_append_single {args : List PyStr} (y : PyStr) (h : args ≠ []) :
    urljoin (args ++ [y]) = urljoin args ++ '/' :: stripSlashes y := by
  unfold urljoin
  rw [List.map_append]
  exact joinWith_append_single _ (by simpa using h)

theorem getLast?_splitOnChar_urljoin_append {args : List PyStr} {y z : PyStr}
    (hargs : args ≠ []) (hz : ∀ c ∈ z, ¬ c = '/') (hstrip : stripSlashes y = z) :
    (splitOnChar '/' (urljoin (args ++ [y]))).getLast? = some z := by
  rw [urljoin_append_single y hargs, hstrip, getLast?_splitOnChar_append,
      splitOnChar_of_not_mem (fun hmem => hz '/' hmem rfl)]
  rfl

theorem pySplitWsAux_tokens_ne_nil :
    ∀ (s acc : PyStr), ∀ t ∈ pySplitWsAux acc s, t ≠ [] := by
  intro s
  induction s with
  | nil =>
    intro acc t ht
    by_cases hacc : acc = []
    · simp [pySplitWsAux, hacc] at ht
    · simp only [pySplitWsAux, if_neg hacc, List.mem_singleton] at ht
      subst ht
      simpa using hacc
  | cons c cs ih =>
    intro acc t ht
    simp only [pySplitWsAux] at ht
    by_cases hsp : isPySpace c
    · rw [if_pos hsp] at ht
      by_cases hacc : acc = []
      · rw [if_pos hacc] at ht
        exact ih [] t ht
      · rw [if_neg hacc] at ht
        rcases List.mem_cons.mp ht with h1 | h1
        · subst h1; simpa using hacc
        · exact ih [] t h1
    · rw [if_neg hsp] at ht
      exact ih (c :: acc) t ht

theorem pySplitWs_tokens_ne_nil {s : PyStr} {t : PyStr} (h : t ∈ pySplitWs s) : t ≠ [] :=
  pySplitWsAux_tokens_ne_nil s [] t h

/-! ## Helper lemmas about the validators and parsers -/

theorem area_collection_check_all {xs : List PyStr}
    (h : ∀ a ∈ xs, is_areaname_correct a = true) :
    is_area_collection_correct_names xs = (true, []) := by
  induction xs with
  | nil => rfl
  | cons a rest ih =>
    simp only [is_area_collection_correct_names, if_pos (h a (List.mem_cons_self a rest))]
    exact ih (fun x hx => h x (List.mem_cons_of_mem a hx))

theorem area_collection_check_first {xs : List PyStr} {bad : PyStr} (ys : List PyStr)
    (hxs : ∀ a ∈ xs, is_areaname_correct a = true) (hbad : is_areaname_correct bad = false) :
    is_area_collection_correct_names (xs ++ bad :: ys) = (false, bad) := by
  induction xs with
  | nil => simp [is_area_collection_correct_names, hbad]
  | cons a rest ih =>
    simp only [List.cons_append, is_area_collection_correct_names,
      if_pos (hxs a (List.mem_cons_self a rest))]
    exact ih (fun x hx => hxs x (List.mem_cons_of_mem a hx))

theorem msgid_collection_check_all {xs : List PyStr}
    (h : ∀ m ∈ xs, is_msgid_correct m = true) :
    is_msgid_collection_correct_ids xs = (true, []) := by
  induction xs with
  | nil => rfl
  | cons m rest ih =>
    simp only [is_msgid_collection_correct_ids, if_pos (h m (List.mem_cons_self m rest))]
    exact ih (fun x hx => h x (List.mem_cons_of_mem m hx))

theorem msgid_collection_check_first {xs : List PyStr} {bad : PyStr} (ys : List PyStr)
    (hxs : ∀ m ∈ xs, is_msgid_correct m = true) (hbad : is_msgid_correct bad = false) :
    is_msgid_collection_correct_ids (xs ++ bad :: ys) = (false, bad) := by
  induction xs with
  | nil => simp [is_msgid_collection_correct_ids, hbad]
  | cons m rest ih =>
    simp only [List.cons_append, is_msgid_collection_correct_ids,
      if_pos (hxs m (List.mem_cons_self m rest))]
    exact ih (fun x hx => hxs x (List.mem_cons_of_mem m hx))

theorem feLines_cons_header {acc a : PyStr} {line : PyStr} (rest : List PyStr)
    (h : splitOnChar ':' line = [a]) :
    feLines acc (line :: rest) = feLines a rest := by
  simp [feLines, h]

theorem feLines_cons_item {acc line : PyStr} {rest : List PyStr} {items : List FileAreaItem}
    (hlen : (splitOnChar ':' line).length ≠ 1)
    (h : feLines acc (line :: rest) = some items) :
    ∃ it more, items = it :: more ∧ it.filearea = acc ∧ feLines acc rest = some more := by
  rcases hsp : splitOnChar ':' line with _ | ⟨f0, _ | ⟨f1, _ | ⟨f2, _ | ⟨f3, ds⟩⟩⟩⟩
  · exact absurd hsp (splitOnChar_ne_nil ':' line)
  · exact absurd (by rw [hsp]; rfl) hlen
  · simp [feLines, hsp] at h
  · simp [feLines, hsp] at h
  · simp only [feLines, hsp] at h
    rcases hint : pyInt f2 with _ | size
    · simp [hint] at h
    · simp only [hint] at h
      rcases hrec : feLines acc rest with _ | more
      · simp [hrec] at h
      · simp only [hrec, Option.map_some'] at h
        rw [Option.some_inj] at h
        exact ⟨_, more, h.symm, rfl, rfl⟩

theorem listtxtLines_cons_record {line : PyStr} (rest : List PyStr) {f0 f1 : PyStr}
    {ds : List PyStr} {n : Int}
    (hsp : splitOnChar ':' line = f0 :: f1 :: ds) (hint : pyInt f1 = some n) :
    listtxtLines (line :: rest) =
      (listtxtLines rest).map (fun items => ⟨f0, n, joinWith ':' ds⟩ :: items) := by
  simp [listtxtLines, hsp, hint]

theorem listtxtLines_cons_short {line : PyStr} (rest : List PyStr)
    (hlen : (splitOnChar ':' line).length < 2) :
    listtxtLines (line :: rest) = none := by
  rcases hsp : splitOnChar ':' line with _ | ⟨f0, _ | ⟨f1, ds⟩⟩
  · simp [listtxtLines, hsp]
  · simp [listtxtLines, hsp]
  · rw [hsp] at hlen
    simp only [List.length_cons] at hlen
    omega

/-! ## Claim C1 (corrected) -/

/-- C1 counterexample: the claim also names `xc_request`, `fc_request`,
`fe_request` and `ff_request` as validating their identifiers and raising a
typed error with no network access on an invalid one; but those four methods
perform no validation at all: for the invalid area name `bad` (no dot),
`fe_request` and `xc_request` go on to build and request a URL. -/
theorem c1_counterexample :
    is_areaname_correct (("bad").toList) = false ∧
    fe_request ⟨("http://x/").toList, none, []⟩ [("bad").toList] 0 0 =
      ("http://x/f/e/bad").toList ∧
    xc_request ⟨("http://x/").toList, none, []⟩ [("bad").toList] =
      ("http://x/x/c/bad").toList := by
  decide

/-- C1 as amended: `e_request`, `m_request`, `ue_request` and `um_request`
validate their identifiers before any network access, raising the typed
error that carries the first offending identifier, and build the request
URL exactly when all supplied identifiers are valid.  (The remaining
methods named by the claim — `xc_request`, `fc_request`, `fe_request`,
`ff_request` — perform no validation; see the counterexample.) -/
theorem c1_amended_validation :
    (∀ (u : Uplink) (area : PyStr), is_areaname_correct area = false →
        e_request u area = .error (.areaNameError area)) ∧
    (∀ (u : Uplink) (area : PyStr), is_areaname_correct area = true →
        (e_request u area).isOk = true) ∧
    (∀ (u : Uplink) (msgid : PyStr), is_msgid_correct msgid = false →
        m_request u msgid = .error (.msgIdError msgid)) ∧
    (∀ (u : Uplink) (msgid : PyStr), is_msgid_correct msgid = true →
        (m_request u msgid).isOk = true) ∧
    (∀ (u : Uplink) (xs : List PyStr) (bad : PyStr) (ys : List PyStr) (start fin : Int),
        (∀ a ∈ xs, is_areaname_correct a = true) → is_areaname_correct bad = false →
        ue_request u (xs ++ bad :: ys) start fin = .error (.areaNameError bad)) ∧
    (∀ (u : Uplink) (areas : List PyStr) (start fin : Int),
        (∀ a ∈ areas, is_areaname_correct a = true) →
        (ue_request u areas start fin).isOk = true) ∧
    (∀ (u : Uplink) (xs : List PyStr) (bad : PyStr) (ys : List PyStr),
        (∀ m ∈ xs, is_msgid_correct m = true) → is_msgid_correct bad = false →
        um_request u (xs ++ bad :: ys) = .error (.msgIdError bad)) ∧
    (∀ (u : Uplink) (msgids : List PyStr),
        (∀ m ∈ msgids, is_msgid_correct m = true) →
        (um_request u msgids).isOk = true) := by
  refine ⟨?_, ?_, ?_, ?_, ?_, ?_, ?_, ?_⟩
  · intro u area h
    simp [e_request, h]
  · intro u area h
    simp [e_request, h, Except.isOk, Except.toBool]
  · intro u msgid h
    simp [m_request, h]
  · intro u msgid h
    simp [m_request, h, Except.isOk, Except.toBool]
  · intro u xs bad ys start fin hxs hbad
    simp [ue_request, area_collection_check_first ys hxs hbad]
  · intro u areas start fin h
    simp [ue_request, area_collection_check_all h, Except.isOk, Except.toBool, apply_ite]
    split
    · rfl
    · rename_i heq
      split at heq <;> exact Except.noConfusion heq
  · intro u xs bad ys hxs hbad
    simp [um_request, msgid_collection_check_first ys hxs hbad]
  · intro u msgids h
    simp [um_request, msgid_collection_check_all h, Except.isOk, Except.toBool]

/-- Witness for C1: the amended theorem applied at concrete inputs. -/
theorem c1_amended_validation_witness :
    e_request ⟨("http://x/").toList, none, []⟩ (("bad").toList) =
      .error (.areaNameError (("bad").toList)) ∧
    (e_request ⟨("http://x/").toList, none, []⟩ (("a.b").toList)).isOk = true ∧
    m_request ⟨("http://x/").toList, none, []⟩ (("short").toList) =
      .error (.msgIdError (("short").toList)) ∧
    (m_request ⟨("http://x/").toList, none, []⟩ (("abcdefghijklmnopqrst").toList)).isOk = true ∧
    ue_request ⟨("http://x/").toList, none, []⟩
        ([("a.b").toList] ++ ("bad").toList :: [("c.d").toList]) (-5) 5 =
      .error (.areaNameError (("bad").toList)) ∧
    (ue_request ⟨("http://x/").toList, none, []⟩ [("a.b").toList, ("c.d").toList] (-5) 5).isOk =
      true ∧
    um_request ⟨("http://x/").toList, none, []⟩
        ([("abcdefghijklmnopqrst").toList] ++ ("short").toList :: []) =
      .error (.msgIdError (("short").toList)) ∧
    (um_request ⟨("http://x/").toList, none, []⟩ [("abcdefghijklmnopqrst").toList]).isOk =
      true := by
  refine ⟨?_, ?_, ?_, ?_, ?_, ?_, ?_, ?_⟩
  · exact c1_amended_validation.1 _ _ (by decide)
  · exact c1_amended_validation.2.1 _ _ (by decide)
  · exact c1_amended_validation.2.2.1 _ _ (by decide)
  · exact c1_amended_validation.2.2.2.1 _ _ (by decide)
  · exact c1_amended_validation.2.2.2.2.1 _ _ _ _ _ _ (by decide) (by decide)
  · exact c1_amended_validation.2.2.2.2.2.1 _ _ _ _ (by decide)
  · exact c1_amended_validation.2.2.2.2.2.2.1 _ _ _ _ (by decide) (by decide)
  · exact c1_amended_validation.2.2.2.2.2.2.2 _ _ (by decide)

/-! ## Claim C8 -/

/-- C8: the batch area-name validator returns `(False, name)` where `name`
is the first element in iteration order failing the area-name predicate
(the elements after it are never examined: the result does not depend on
`ys`), and `(True, '')` when every element passes; the batch msgid
validator behaves the same way over the msgid predicate. -/
theorem c8_collection_validators :
    (∀ xs : List PyStr, (∀ a ∈ xs, is_areaname_correct a = true) →
        is_area_collection_correct_names xs = (true, [])) ∧
    (∀ (xs : List PyStr) (bad : PyStr) (ys : List PyStr),
        (∀ a ∈ xs, is_areaname_correct a = true) → is_areaname_correct bad = false →
        is_area_collection_correct_names (xs ++ bad :: ys) = (false, bad)) ∧
    (∀ xs : List PyStr, (∀ m ∈ xs, is_msgid_correct m = true) →
        is_msgid_collection_correct_ids xs = (true, [])) ∧
    (∀ (xs : List PyStr) (bad : PyStr) (ys : List PyStr),
        (∀ m ∈ xs, is_msgid_correct m = true) → is_msgid_correct bad = false →
        is_msgid_collection_correct_ids (xs ++ bad :: ys) = (false, bad)) :=
  ⟨fun _ h => area_collection_check_all h,
   fun _ _ ys h hb => area_collection_check_first ys h hb,
   fun _ h => msgid_collection_check_all h,
   fun _ _ ys h hb => msgid_collection_check_first ys h hb⟩

/-- Witness for C8: the theorem applied at concrete collections. -/
theorem c8_collection_validators_witness :
    is_area_collection_correct_names [("a.b").toList, ("c.d").toList] = (true, []) ∧
    is_area_collection_correct_names
        ([("a.b").toList] ++ ("bad").toList :: [("also bad").toList, ("c.d").toList]) =
      (false, ("bad").toList) ∧
    is_msgid_collection_correct_ids [("abcdefghijklmnopqrst").toList] = (true, []) ∧
    is_msgid_collection_correct_ids
        ([("abcdefghijklmnopqrst").toList] ++ ("short").toList :: [("x").toList]) =
      (false, ("short").toList) := by
  refine ⟨?_, ?_, ?_, ?_⟩
  · exact c8_collection_validators.1 _ (by decide)
  · exact c8_collection_validators.2.1 _ _ _ (by decide) (by decide)
  · exact c8_collection_validators.2.2.1 _ (by decide)
  · exact c8_collection_validators.2.2.2 _ _ _ (by decide) (by decide)

/-! ## Claim C3 -/

/-- C3: whenever `Message.from_raw_text` succeeds, the constructed Message
has `tags` = line 0, `echoarea` = line 1, `date` = the integer value of
line 2, `msgfrom` = line 3, `address` = line 4, `msgto` = line 5,
`subject` = line 6, and `body` = the lines from index 8 onward rejoined
with newlines (line 7 is dropped). -/
theorem c3_from_raw_text_fields :
    ∀ (mid text : PyStr) (m : Message), Message.from_raw_text mid text = some m →
      m.msgid = mid ∧
      m.tags = (splitOnChar '\n' text).getD 0 [] ∧
      m.echoarea = (splitOnChar '\n' text).getD 1 [] ∧
      pyInt ((splitOnChar '\n' text).getD 2 []) = some m.date ∧
      m.msgfrom = (splitOnChar '\n' text).getD 3 [] ∧
      m.address = (splitOnChar '\n' text).getD 4 [] ∧
      m.msgto = (splitOnChar '\n' text).getD 5 [] ∧
      m.subject = (splitOnChar '\n' text).getD 6 [] ∧
      m.body = joinWith '\n' ((splitOnChar '\n' text).drop 8) := by
  intro mid text m h
  rcases hsp : splitOnChar '\n' text with
    _ | ⟨l0, _ | ⟨l1, _ | ⟨l2, _ | ⟨l3, _ | ⟨l4, _ | ⟨l5, _ | ⟨l6, rest⟩⟩⟩⟩⟩⟩⟩
  · simp [Message.from_raw_text, hsp] at h
  · simp [Message.from_raw_text, hsp] at h
  · simp [Message.from_raw_text, hsp] at h
  · simp [Message.from_raw_text, hsp] at h
  · simp [Message.from_raw_text, hsp] at h
  · simp [Message.from_raw_text, hsp] at h
  · simp [Message.from_raw_text, hsp] at h
  · simp only [Message.from_raw_text, hsp] at h
    rcases hint : pyInt l2 with _ | d
    · simp [hint] at h
    · simp only [hint] at h
      rw [Option.some_inj] at h
      subst h
      refine ⟨rfl, rfl, rfl, ?_, rfl, rfl, rfl, rfl, ?_⟩
      · exact hint
      · simp

/-- Witness for C3: the theorem applied to the spec's round-trip example
(the hypothesis is discharged by evaluation, proving along the way that the
example parses to exactly the expected record). -/
theorem c3_from_raw_text_fields_witness :
    Message.from_raw_text (("id").toList)
        (("tags\narea\n123\nfrom\naddr\nto\nsubj\n\nline1\nline2").toList) =
      some ⟨("id").toList, ("tags").toList, ("area").toList, 123, ("from").toList,
            ("addr").toList, ("to").toList, ("subj").toList, ("line1\nline2").toList⟩ ∧
    (Message.mk (("id").toList) (("tags").toList) (("area").toList) 123 (("from").toList)
        (("addr").toList) (("to").toList) (("subj").toList) (("line1\nline2").toList)).tags =
      (splitOnChar '\n'
        (("tags\narea\n123\nfrom\naddr\nto\nsubj\n\nline1\nline2").toList)).getD 0 [] ∧
    (Message.mk (("id").toList) (("tags").toList) (("area").toList) 123 (("from").toList)
        (("addr").toList) (("to").toList) (("subj").toList) (("line1\nline2").toList)).body =
      joinWith '\n'
        ((splitOnChar '\n'
          (("tags\narea\n123\nfrom\naddr\nto\nsubj\n\nline1\nline2").toList)).drop 8) := by
  have h : Message.from_raw_text (("id").toList)
      (("tags\narea\n123\nfrom\naddr\nto\nsubj\n\nline1\nline2").toList) =
      some ⟨("id").toList, ("tags").toList, ("area").toList, 123, ("from").toList,
            ("addr").toList, ("to").toList, ("subj").toList, ("line1\nline2").toList⟩ := by
    decide
  have hf := c3_from_raw_text_fields _ _ _ h
  exact ⟨h, hf.2.1, hf.2.2.2.2.2.2.2.2⟩

/-! ## Claim C10 -/

/-- C10: `Message.from_raw_text` performs no out-of-range line access for
any input whose newline-split has at least 7 lines and whose third line
parses as an integer (the construction succeeds — no ≥9-line condition is
checked), and for inputs of exactly 7 or 8 lines the resulting body is the
empty string. -/
theorem c10_from_raw_text_safety :
    ∀ (mid text : PyStr),
      7 ≤ (splitOnChar '\n' text).length →
      (pyInt ((splitOnChar '\n' text).getD 2 [])).isSome = true →
      (Message.from_raw_text mid text).isSome = true ∧
      (((splitOnChar '\n' text).length = 7 ∨ (splitOnChar '\n' text).length = 8) →
        ∀ m, Message.from_raw_text mid text = some m → m.body = []) := by
  intro mid text hlen hint
  rcases hsp : splitOnChar '\n' text with
    _ | ⟨l0, _ | ⟨l1, _ | ⟨l2, _ | ⟨l3, _ | ⟨l4, _ | ⟨l5, _ | ⟨l6, rest⟩⟩⟩⟩⟩⟩⟩ <;>
    rw [hsp] at hlen
  · simp at hlen
  · simp at hlen
  · simp at hlen
  · simp only [List.length_cons, List.length_nil] at hlen; omega
  · simp only [List.length_cons, List.length_nil] at hlen; omega
  · simp only [List.length_cons, List.length_nil] at hlen; omega
  · simp only [List.length_cons, List.length_nil] at hlen; omega
  · rw [hsp] at hint
    simp only [List.getD_cons_succ, List.getD_cons_zero] at hint
    rcases hd : pyInt l2 with _ | d
    · rw [hd] at hint
      simp at hint
    · constructor
      · simp [Message.from_raw_text, hsp, hd]
      · intro hlen78 m hm
        simp only [Message.from_raw_text, hsp, hd] at hm
        rw [Option.some_inj] at hm
        subst hm
        simp only [List.length_cons, List.length_nil] at hlen78
        rcases rest with _ | ⟨r, rs⟩
        · rfl
        · have hrs : rs = [] := by
            rcases hlen78 with h78 | h78 <;>
              (simp only [List.length_cons] at h78; exact List.length_eq_zero.mp (by omega))
          subst hrs
          rfl

/-- Witness for C10: the theorem applied to a 7-line input. -/
theorem c10_from_raw_text_safety_witness :
    7 ≤ (splitOnChar '\n' (("t\na\n1\nf\nad\nto\ns").toList)).length ∧
    (pyInt ((splitOnChar '\n' (("t\na\n1\nf\nad\nto\ns").toList)).getD 2 [])).isSome = true ∧
    (Message.from_raw_text (("id").toList) (("t\na\n1\nf\nad\nto\ns").toList)).isSome = true ∧
    (∀ m, Message.from_raw_text (("id").toList) (("t\na\n1\nf\nad\nto\ns").toList) = some m →
      m.body = []) := by
  have h := c10_from_raw_text_safety (("id").toList) (("t\na\n1\nf\nad\nto\ns").toList)
    (by decide) (by decide)
  exact ⟨by decide, by decide, h.1, h.2 (by decide)⟩

/-! ## Claim C4 (corrected) -/

/-- C4 counterexample: the claim says blank or short lines (fewer than 2
colon-fields) are skipped, producing no record; but on the body
`"a.b:5:d\n\nc.d:1:x"` — whose interior blank line splits into a single
colon-field — the parser fails altogether (Python raises `IndexError` on
`area[1]`) instead of skipping the line and yielding the two records. -/
theorem c4_counterexample :
    listtxt_request_parse (("a.b:5:d\n\nc.d:1:x").toList) = none ∧
    listtxt_request_parse (("a.b:5:d\n\nc.d:1:x").toList) ≠
      some [⟨("a.b").toList, 5, ("d").toList⟩, ⟨("c.d").toList, 1, ("x").toList⟩] := by
  decide

/-- C4 as amended: the catalog parsers for list.txt and f/list.txt map each
line to a record whose name is colon-field 0, whose count is the integer
value of colon-field 1 and whose description is the remaining colon-fields
rejoined with ':' (so a description may contain colons); but blank or short
lines (fewer than 2 colon-fields) are not skipped — such a line, like a
non-integer count field, makes the whole parse fail. -/
theorem c4_amended_listtxt :
    listtxt_request_parse (("a.b:5:desc:with:colons").toList) =
      some [⟨("a.b").toList, 5, ("desc:with:colons").toList⟩] ∧
    (∀ (line : PyStr) (rest : List PyStr) (f0 f1 : PyStr) (ds : List PyStr) (n : Int),
        splitOnChar ':' line = f0 :: f1 :: ds → pyInt f1 = some n →
        listtxtLines (line :: rest) =
          (listtxtLines rest).map (fun items => ⟨f0, n, joinWith ':' ds⟩ :: items)) ∧
    (∀ (line : PyStr) (rest : List PyStr), (splitOnChar ':' line).length < 2 →
        listtxtLines (line :: rest) = none) ∧
    (∀ body : PyStr, flisttxt_request_parse body = listtxt_request_parse body) := by
  refine ⟨by decide, ?_, ?_, fun body => rfl⟩
  · intro line rest f0 f1 ds n hsp hint
    exact listtxtLines_cons_record rest hsp hint
  · intro line rest hlen
    exact listtxtLines_cons_short rest hlen

/-- Witness for C4's amended theorem: its quantified parts applied to a
well-formed line and to a blank line. -/
theorem c4_amended_listtxt_witness :
    splitOnChar ':' (("a.b:5:d").toList) = [['a', '.', 'b'], ['5'], ['d']] ∧
    pyInt ['5'] = some 5 ∧
    listtxtLines [("a.b:5:d").toList] =
      (listtxtLines []).map
        (fun items => ⟨['a', '.', 'b'], 5, joinWith ':' [['d']]⟩ :: items) ∧
    (splitOnChar ':' ([] : PyStr)).length < 2 ∧
    listtxtLines [([] : PyStr)] = none := by
  refine ⟨by decide, by decide, ?_, by decide, ?_⟩
  · exact c4_amended_listtxt.2.1 (("a.b:5:d").toList) [] ['a', '.', 'b'] ['5'] [['d']] 5
      (by decide) (by decide)
  · exact c4_amended_listtxt.2.2.1 _ [] (by decide)

/-! ## Claim C5 -/

/-- C5: for the range-qualified index endpoints (`ue_request` and
`fe_request`), when both `start` and `end` are non-zero the built URL ends
with a final path segment that is exactly the decimal `<start>:<end>`
(negative `start` included); when either is zero, no slice segment is
appended: the URL is exactly the join of the base url, the endpoint path
and the collection. -/
theorem c5_slice_segment :
    (∀ (u : Uplink) (areas : List PyStr) (start fin : Int) (url : PyStr),
        start ≠ 0 → fin ≠ 0 → ue_request u areas start fin = .ok url →
        (splitOnChar '/' url).getLast? = some (sliceSeg start fin)) ∧
    (∀ (u : Uplink) (areas : List PyStr) (start fin : Int) (url : PyStr),
        start = 0 ∨ fin = 0 → ue_request u areas start fin = .ok url →
        url = urljoin (u.url :: uePathSlash :: areas)) ∧
    (∀ (u : Uplink) (fileareas : List PyStr) (start fin : Int),
        start ≠ 0 → fin ≠ 0 →
        (splitOnChar '/' (fe_request u fileareas start fin)).getLast? =
          some (sliceSeg start fin)) ∧
    (∀ (u : Uplink) (fileareas : List PyStr) (start fin : Int),
        start = 0 ∨ fin = 0 →
        fe_request u fileareas start fin = urljoin (u.url :: fePath :: fileareas)) := by
  have hnoand : ∀ {s f : Int}, s = 0 ∨ f = 0 → ¬ (s ≠ 0 ∧ f ≠ 0) := by
    rintro s f (h | h) ⟨ha, hb⟩
    · exact ha h
    · exact hb h
  refine ⟨?_, ?_, ?_, ?_⟩
  · intro u areas s f url hs hf hok
    rcases hchk : is_area_collection_correct_names areas with ⟨b, bad⟩
    cases b
    · simp [ue_request, hchk] at hok
    · simp [ue_request, hchk, hs, hf] at hok
      subst hok
      have hre : u.url :: uePath :: (areas ++ ['/' :: sliceSeg s f]) =
          (u.url :: uePath :: areas) ++ ['/' :: sliceSeg s f] := by simp
      rw [hre]
      exact getLast?_splitOnChar_urljoin_append (by simp)
        (fun c hc => mem_sliceSeg_not_slash hc)
        (by rw [stripSlashes_cons_slash, stripSlashes_sliceSeg])
  · intro u areas s f url h0 hok
    rcases hchk : is_area_collection_correct_names areas with ⟨b, bad⟩
    cases b
    · simp [ue_request, hchk] at hok
    · simp [ue_request, hchk, hnoand h0] at hok
      exact hok.symm
  · intro u fileareas s f hs hf
    rw [fe_request, if_pos (And.intro hs hf)]
    have hre : u.url :: fePath :: (fileareas ++ [sliceSeg s f]) =
        (u.url :: fePath :: fileareas) ++ [sliceSeg s f] := by simp
    rw [hre]
    exact getLast?_splitOnChar_urljoin_append (by simp)
      (fun c hc => mem_sliceSeg_not_slash hc) (stripSlashes_sliceSeg s f)
  · intro u fileareas s f h0
    rw [fe_request, if_neg (hnoand h0)]

/-- Witness for C5: the theorem applied to the spec's example
`ue_request(['a.b','c.d'], -5, 5)` (whose slice segment renders as `-5:5`)
and to zero slice bounds. -/
theorem c5_slice_segment_witness :
    sliceSeg (-5) 5 = ("-5:5").toList ∧
    ue_request ⟨("http://x/").toList, none, []⟩ [("a.b").toList, ("c.d").toList] (-5) 5 =
      .ok (("http://x/u/e/a.b/c.d/-5:5").toList) ∧
    (splitOnChar '/' (("http://x/u/e/a.b/c.d/-5:5").toList)).getLast? =
      some (sliceSeg (-5) 5) ∧
    ue_request ⟨("http://x/").toList, none, []⟩ [("a.b").toList, ("c.d").toList] 0 0 =
      .ok (urljoin (("http://x/").toList :: uePathSlash :: [("a.b").toList, ("c.d").toList])) ∧
    (splitOnChar '/'
        (fe_request ⟨("http://x/").toList, none, []⟩ [("a.b").toList] (-5) 5)).getLast? =
      some (sliceSeg (-5) 5) ∧
    fe_request ⟨("http://x/").toList, none, []⟩ [("a.b").toList] 0 3 =
      urljoin (("http://x/").toList :: fePath :: [("a.b").toList]) := by
  refine ⟨by decide, by decide, ?_, ?_, ?_, ?_⟩
  · exact c5_slice_segment.1 ⟨("http://x/").toList, none, []⟩
      [("a.b").toList, ("c.d").toList] (-5) 5 _ (by decide) (by decide) (by decide)
  · have h : ue_request ⟨("http://x/").toList, none, []⟩
        [("a.b").toList, ("c.d").toList] 0 0 =
        .ok (("http://x/u/e/a.b/c.d").toList) := by decide
    rw [h]
    rw [c5_slice_segment.2.1 ⟨("http://x/").toList, none, []⟩
      [("a.b").toList, ("c.d").toList] 0 0 _ (Or.inl rfl) h]
  · exact c5_slice_segment.2.2.1 ⟨("http://x/").toList, none, []⟩
      [("a.b").toList] (-5) 5 (by decide) (by decide)
  · exact c5_slice_segment.2.2.2 ⟨("http://x/").toList, none, []⟩
      [("a.b").toList] 0 3 (Or.inl rfl)

/-! ## Claim C6 -/

/-- C6: the two-level filearea-index parser scans lines in order with a
current-filearea accumulator: a line whose colon-split has exactly one
field sets the accumulator and produces no record, and any other line
(when the whole parse succeeds) produces exactly one FileAreaItem whose
`filearea` equals the current accumulator; in particular the spec's example
body yields exactly two records, both with filearea `myfilearea`. -/
theorem c6_fe_accumulator :
    (∀ (acc a line : PyStr) (rest : List PyStr),
        splitOnChar ':' line = [a] →
        feLines acc (line :: rest) = feLines a rest) ∧
    (∀ (acc line : PyStr) (rest : List PyStr) (items : List FileAreaItem),
        (splitOnChar ':' line).length ≠ 1 →
        feLines acc (line :: rest) = some items →
        ∃ it more, items = it :: more ∧ it.filearea = acc ∧
          feLines acc rest = some more) ∧
    fe_request_parse
        (("myfilearea\n1:readme.txt:100:addr:desc\n2:other.zip:200:addr:d2").toList) =
      some [⟨("myfilearea").toList, ("1").toList, ("readme.txt").toList, 100,
             ("addr").toList, ("desc").toList⟩,
            ⟨("myfilearea").toList, ("2").toList, ("other.zip").toList, 200,
             ("addr").toList, ("d2").toList⟩] := by
  refine ⟨?_, ?_, by decide⟩
  · intro acc a line rest hsp
    exact feLines_cons_header rest hsp
  · intro acc line rest items hlen h
    exact feLines_cons_item hlen h

/-- Witness for C6: the theorem applied to a header line and to an item
line at concrete inputs. -/
theorem c6_fe_accumulator_witness :
    feLines [] [("hdr").toList] = feLines (("hdr").toList) [] ∧
    (∃ it more,
      [(⟨['x'], ['1'], ['a'], 2, ['b'], ['c']⟩ : FileAreaItem)] = it :: more ∧
        it.filearea = ['x'] ∧ feLines ['x'] [] = some more) := by
  constructor
  · exact c6_fe_accumulator.1 [] (("hdr").toList) (("hdr").toList) [] (by decide)
  · exact c6_fe_accumulator.2.1 ['x'] (("1:a:2:b:c").toList) [] _ (by decide) (by decide)

/-! ## Claim C9 -/

/-- C9: item lines that precede any single-token header line yield
FileAreaItem records whose `filearea` is the empty string (the
accumulator's initial value); no error is raised and no header is required:
whenever the stripped body's first line is not a single-field header line
and the parse succeeds, the first record's filearea is `""`, and a
headerless body parses fully with every record's filearea empty. -/
theorem c9_fe_no_header :
    (∀ (body l : PyStr) (ls : List PyStr) (items : List FileAreaItem),
        splitOnChar '\n' (pyStrip body) = l :: ls →
        (splitOnChar ':' l).length ≠ 1 →
        fe_request_parse body = some items →
        ∃ it more, items = it :: more ∧ it.filearea = []) ∧
    fe_request_parse (("1:a.txt:100:ad:d\n2:b.zip:200:ad:e").toList) =
      some [⟨[], ("1").toList, ("a.txt").toList, 100, ("ad").toList, ("d").toList⟩,
            ⟨[], ("2").toList, ("b.zip").toList, 200, ("ad").toList, ("e").toList⟩] := by
  refine ⟨?_, by decide⟩
  intro body l ls items hsp hlen h
  rw [fe_request_parse, hsp] at h
  obtain ⟨it, more, heq, hfa, _⟩ := feLines_cons_item hlen h
  exact ⟨it, more, heq, hfa⟩

/-- Witness for C9: the theorem applied to a concrete headerless body. -/
theorem c9_fe_no_header_witness :
    ∃ it more,
      [(⟨[], ("1").toList, ("a.txt").toList, 100, ("ad").toList, ("d").toList⟩ : FileAreaItem),
       ⟨[], ("2").toList, ("b.zip").toList, 200, ("ad").toList, ("e").toList⟩] = it :: more ∧
      it.filearea = [] :=
  c9_fe_no_header.1 (("1:a.txt:100:ad:d\n2:b.zip:200:ad:e").toList)
    (("1:a.txt:100:ad:d").toList) [("2:b.zip:200:ad:e").toList] _
    (by decide) (by decide) (by decide)

/-! ## Claim C7 (corrected) -/

/-- C7 counterexample: the claim says the `x/features` and `f/blacklist.txt`
results contain no empty token, but both parsers are a bare
`body.strip().split('\n')`: an interior blank line survives as an empty
token. -/
theorem c7_counterexample :
    [] ∈ xfeatures_request_parse (("a\n\nb").toList) ∧
    [] ∈ fblacklisttxt_request_parse (("x\n\ny").toList) := by
  decide

/-- C7 as amended: the blacklist.txt result is a set of non-empty
whitespace-separated tokens (deduplicated, unordered — rendered by the
`Finset` of the whitespace-split), while the `x/features` and
`f/blacklist.txt` results are the ordered sequences of newline-separated
tokens of the whitespace-stripped body with empty tokens kept (rejoining
them with newlines recovers the stripped body exactly). -/
theorem c7_amended_token_parsers :
    ∀ body : PyStr,
      [] ∉ blacklisttxt_request_parse body ∧
      blacklisttxt_request_parse body = (pySplitWs body).toFinset ∧
      joinWith '\n' (xfeatures_request_parse body) = pyStrip body ∧
      joinWith '\n' (fblacklisttxt_request_parse body) = pyStrip body := by
  intro body
  have hfilter : (pySplitWs body).filter (fun x => !x.isEmpty) = pySplitWs body := by
    apply List.filter_eq_self.mpr
    intro a ha
    cases a with
    | nil => exact absurd rfl (pySplitWs_tokens_ne_nil ha)
    | cons x xs => rfl
  refine ⟨?_, ?_, ?_, ?_⟩
  · intro hmem
    rw [blacklisttxt_request_parse, hfilter, List.mem_toFinset] at hmem
    exact pySplitWs_tokens_ne_nil hmem rfl
  · rw [blacklisttxt_request_parse, hfilter]
  · exact joinWith_splitOnChar '\n' (pyStrip body)
  · exact joinWith_splitOnChar '\n' (pyStrip body)

/-- Witness for C7's amended theorem: its statement at concrete bodies. -/
theorem c7_amended_token_parsers_witness :
    [] ∉ blacklisttxt_request_parse (("a b  c").toList) ∧
    blacklisttxt_request_parse (("a b  c").toList) =
      (pySplitWs (("a b  c").toList)).toFinset ∧
    joinWith '\n' (xfeatures_request_parse (("a\n\nb").toList)) =
      pyStrip (("a\n\nb").toList) ∧
    joinWith '\n' (fblacklisttxt_request_parse (("x\ny").toList)) =
      pyStrip (("x\ny").toList) :=
  ⟨(c7_amended_token_parsers _).1, (c7_amended_token_parsers _).2.1,
   (c7_amended_token_parsers _).2.2.1, (c7_amended_token_parsers _).2.2.2⟩
